import Mathlib

/-!
Verification of the force-directed layout and interaction engine of
`ordbokapi/vis-client` against its natural-language specification.

The development is a shallow embedding of the relevant TypeScript sources:

* `src/types/vector-2d.ts` / `src/types/rect-2d.ts` — plane geometry,
* `src/rendering/bbox-collision-force.ts` — the bounding-box collision force,
* `src/rendering/graph-behaviours/graph-behaviour.ts` — the behaviour manager,
* `src/rendering/graph-behaviours` drag / selection behaviours,
* `src/rendering/node-graph.ts` — `setData` and position snapshots,
* `src/rendering/bounding-box-cache.ts` — the bounding-box cache,
* `src/providers/app-state.ts` — persisted-state deserialization,
* `node-selection.ts` — the node selection set.

Numbers are modelled as rationals.  The only irrational operation in the
sources, `Math.sqrt` inside `Vector2D.magnitude`, is represented by an
explicit function parameter `sqrtFn : ℚ → ℚ`; theorems about code paths
that consume a square root carry hypotheses stating that `sqrtFn` is an
exact square root at the (perfect-square) arguments in question, and
concrete evaluations instantiate `sqrtFn` with `sqrtQ` below, which is
exact on squares of rationals.
-/

namespace VisClient

/-- Embeds `Vector2D` (src/types/vector-2d.ts): a 2-dimensional vector. -/
structure Vector2D where
  x : ℚ
  y : ℚ
deriving DecidableEq, Repr

namespace Vector2D

/-- Embeds `Vector2D.add`. -/
def add (v w : Vector2D) : Vector2D := ⟨v.x + w.x, v.y + w.y⟩

/-- Embeds `Vector2D.subtract`. -/
def sub (v w : Vector2D) : Vector2D := ⟨v.x - w.x, v.y - w.y⟩

/-- Embeds `Vector2D.multiply` with a scalar. -/
def smul (v : Vector2D) (s : ℚ) : Vector2D := ⟨v.x * s, v.y * s⟩

/-- The square of `Vector2D.magnitude` (`x * x + y * y`); the source takes
`Math.sqrt` of this quantity, which the embedding represents through an
explicit `sqrtFn` parameter. -/
def magSq (v : Vector2D) : ℚ := v.x * v.x + v.y * v.y

theorem magSq_nonneg (v : Vector2D) : 0 ≤ v.magSq := by
  have hx : 0 ≤ v.x * v.x := mul_self_nonneg v.x
  have hy : 0 ≤ v.y * v.y := mul_self_nonneg v.y
  simpa [magSq] using add_nonneg hx hy

theorem magSq_eq_zero_iff (v : Vector2D) : v.magSq = 0 ↔ v.x = 0 ∧ v.y = 0 := by
  constructor
  · intro h
    have hx : 0 ≤ v.x * v.x := mul_self_nonneg v.x
    have hy : 0 ≤ v.y * v.y := mul_self_nonneg v.y
    have hx0 : v.x * v.x = 0 := by
      unfold magSq at h; nlinarith
    have hy0 : v.y * v.y = 0 := by
      unfold magSq at h; nlinarith
    exact ⟨by nlinarith, by nlinarith⟩
  · rintro ⟨hx, hy⟩
    simp [magSq, hx, hy]

end Vector2D

/-- Embeds `Rect2D` (src/types/rect-2d.ts): an axis-aligned rectangle given by its
top-left corner and its size. -/
structure Rect2D where
  position : Vector2D
  size : Vector2D
deriving DecidableEq, Repr

namespace Rect2D

/-- Embeds `Rect2D.topLeft`. -/
def topLeft (r : Rect2D) : Vector2D := r.position

/-- Embeds `Rect2D.topRight`. -/
def topRight (r : Rect2D) : Vector2D := ⟨r.position.x + r.size.x, r.position.y⟩

/-- Embeds `Rect2D.bottomLeft`. -/
def bottomLeft (r : Rect2D) : Vector2D := ⟨r.position.x, r.position.y + r.size.y⟩

/-- Embeds `Rect2D.bottomRight`. -/
def bottomRight (r : Rect2D) : Vector2D :=
  ⟨r.position.x + r.size.x, r.position.y + r.size.y⟩

/-- Embeds `Rect2D.center`. -/
def center (r : Rect2D) : Vector2D :=
  ⟨r.position.x + r.size.x / 2, r.position.y + r.size.y / 2⟩

/-- Embeds `Rect2D.area`. -/
def area (r : Rect2D) : ℚ := r.size.x * r.size.y

/-- Embeds `Rect2D.intersection`: the common rectangle, or `none` when the two
rectangles do not meet (`x2 < x1 || y2 < y1` in the source, so rectangles
that merely touch yield a degenerate rectangle rather than `none`). -/
def intersection (a b : Rect2D) : Option Rect2D :=
  let x1 := max a.position.x b.position.x
  let y1 := max a.position.y b.position.y
  let x2 := min (a.position.x + a.size.x) (b.position.x + b.size.x)
  let y2 := min (a.position.y + a.size.y) (b.position.y + b.size.y)
  if x2 < x1 ∨ y2 < y1 then none
  else some ⟨⟨x1, y1⟩, ⟨x2 - x1, y2 - y1⟩⟩

/-- Embeds `Rect2D.containsPoint` (bounds inclusive). -/
def containsPoint (r : Rect2D) (p : Vector2D) : Prop :=
  r.position.x ≤ p.x ∧ p.x ≤ r.position.x + r.size.x ∧
    r.position.y ≤ p.y ∧ p.y ≤ r.position.y + r.size.y

instance (r : Rect2D) (p : Vector2D) : Decidable (r.containsPoint p) := by
  unfold containsPoint; infer_instance

/-- Embeds `Rect2D.intersectsRect`, exactly as implemented: true when this
rectangle contains at least one of the four corners of the other
rectangle. -/
def intersectsRect (a b : Rect2D) : Prop :=
  a.containsPoint b.topLeft ∨ a.containsPoint b.topRight ∨
    a.containsPoint b.bottomLeft ∨ a.containsPoint b.bottomRight

instance (a b : Rect2D) : Decidable (a.intersectsRect b) := by
  unfold intersectsRect; infer_instance

/-- Modelled from the spec: `Rect2D.resizeCentered`, whose definition is not
part of the provided sources (the `rect-2d.ts` snapshot predates it; only its
call sites in `bbox-collision-force.ts` survive).  The spec describes the
call sites as expanding a bounding box "by a fixed margin (20 units)", and an
earlier revision of the force inlines the same operation as
`position -= margin / 2; size += margin`: the rectangle grows by the given
amount in each dimension while keeping its center. -/
def resizeCentered (r : Rect2D) (m : Vector2D) : Rect2D :=
  ⟨⟨r.position.x - m.x / 2, r.position.y - m.y / 2⟩,
    ⟨r.size.x + m.x, r.size.y + m.y⟩⟩

end Rect2D

/-- Geometric rectangle intersection as the specification words it: two
axis-aligned rectangles intersect when they share at least one point, which
covers the containment and crossing cases.  This is the spec-side notion C5
compares against `Rect2D.intersectsRect`. -/
def rectsOverlapSpec (a b : Rect2D) : Prop :=
  a.position.x ≤ b.position.x + b.size.x ∧ b.position.x ≤ a.position.x + a.size.x ∧
    a.position.y ≤ b.position.y + b.size.y ∧ b.position.y ≤ a.position.y + a.size.y

instance (a b : Rect2D) : Decidable (rectsOverlapSpec a b) := by
  unfold rectsOverlapSpec; infer_instance

/-- The `'selection'` event handler installed by `GraphSelectionBehaviour`:
it clears the previous selection and then adds every node graphic whose
bounding box passes `rect.intersectsRect`, so the resulting membership is
exactly the filtered list (the prior selection is fully replaced). -/
def selectionRectHandler (rect : Rect2D) (allGraphics : List (ℕ × Rect2D)) : List ℕ :=
  (allGraphics.filter (fun g => decide (rect.intersectsRect g.2))).map Prod.fst

/-! ### BBoxCollisionForce (src/rendering/bbox-collision-force.ts)

A simulation node as the force sees it: the d3 datum's position and
velocity, together with the node's bounding-box size.  `BoundingBoxCache.get`
derives the box from the graphic's position (kept in sync with the d3
position by the per-frame render) as `topLeft = position - size / 2`, and
the cache treats the size as stable. -/

/-- A d3 simulation node together with its cached bounding-box size. -/
structure SimNode where
  x : ℚ
  y : ℚ
  vx : ℚ
  vy : ℚ
  w : ℚ
  h : ℚ
deriving DecidableEq, Repr

/-- The bounding box `BoundingBoxCache.get` yields for a node's graphic:
centered on the node's position with the cached size. -/
def nodeBounds (n : SimNode) : Rect2D :=
  ⟨⟨n.x - n.w / 2, n.y - n.h / 2⟩, ⟨n.w, n.h⟩⟩

/-- Overlap test of the RBush rectangle tree backing
`GraphNodeBBoxBehaviour.nodesIn` (an external dependency): two boxes match
when they intersect, bounds inclusive. -/
def rbushIntersects (a b : Rect2D) : Prop := rectsOverlapSpec a b

instance (a b : Rect2D) : Decidable (rbushIntersects a b) := by
  unfold rbushIntersects; infer_instance

/-- Replace the element at index `k` (used for the in-place velocity
mutations of the force loop). -/
def modifyIdx (f : α → α) : ℕ → List α → List α
  | _, [] => []
  | 0, a :: as => f a :: as
  | k + 1, a :: as => a :: modifyIdx f k as

/-- What the inner loop of `applyForce` does to one candidate pair. -/
inductive PairEffect where
  /-- Candidate skipped: empty intersection or coincident centers. -/
  | skip : PairEffect
  /-- Case `force.magnitude < 0.01`: the node's velocity is damped by `0.02`. -/
  | friction : PairEffect
  /-- Impulse `f` added to the node and subtracted from the other node. -/
  | impulse (f : Vector2D) : PairEffect
deriving DecidableEq, Repr

/-- The per-candidate computation of `BBoxCollisionForce.applyForce`:
given the node's bounds `bi` and a candidate node `nj`, expand the
candidate's bounds by the 20-unit margin, intersect, and derive the force.
`sqrtFn` stands for `Math.sqrt` (only reached through
`direction.magnitude`, `normalize` and `force.magnitude`); the
`!direction.magnitude` test is equivalent to the squared magnitude being
zero. -/
def pairEffect (sqrtFn : ℚ → ℚ) (strength alphaFactor : ℚ) (bi : Rect2D)
    (nj : SimNode) : PairEffect :=
  match bi.intersection ((nodeBounds nj).resizeCentered ⟨20, 20⟩) with
  | none => .skip
  | some inter =>
    let direction := inter.center.sub bi.center
    if direction.magSq = 0 then .skip
    else
      let distance := max (sqrtFn direction.magSq) 1
      let normalizedDirection := direction.smul (1 / sqrtFn direction.magSq)
      let intersectionArea := min inter.area 5
      let forceMagnitude := min (intersectionArea / distance * alphaFactor) 1
      let force := normalizedDirection.smul (forceMagnitude * strength * (-1))
      if sqrtFn force.magSq < 1 / 100 then .friction else .impulse force

/-- Apply one candidate's effect to the node list: friction damps node `i`'s
velocity by `0.02`; an impulse adds `f` to node `i`'s velocity and subtracts
it from node `j`'s. -/
def innerStep (sqrtFn : ℚ → ℚ) (strength alphaFactor : ℚ) (bi : Rect2D) (i : ℕ)
    (nodes : List SimNode) (j : ℕ) : List SimNode :=
  match nodes[j]? with
  | none => nodes
  | some nj =>
    match pairEffect sqrtFn strength alphaFactor bi nj with
    | .skip => nodes
    | .friction =>
        modifyIdx (fun n => { n with vx := n.vx * (2 / 100), vy := n.vy * (2 / 100) }) i nodes
    | .impulse f =>
        modifyIdx (fun n => { n with vx := n.vx - f.x, vy := n.vy - f.y }) j
          (modifyIdx (fun n => { n with vx := n.vx + f.x, vy := n.vy + f.y }) i nodes)

/-- One iteration of the outer loop of `applyForce`: compute the node's
bounds, expand them by the search margin, and fold the inner loop over every
other node whose index-tree leaf intersects the search bounds.  (The RBush
search order is unspecified; the embedding enumerates candidates in index
order.) -/
def outerStep (sqrtFn : ℚ → ℚ) (strength alphaFactor : ℚ) (nodes : List SimNode)
    (i : ℕ) : List SimNode :=
  match nodes[i]? with
  | none => nodes
  | some ni =>
    let bounds := nodeBounds ni
    let searchBounds := bounds.resizeCentered ⟨20, 20⟩
    let candidates := (List.range nodes.length).filter fun j =>
      decide (j ≠ i) && match nodes[j]? with
        | some nj => decide (rbushIntersects (nodeBounds nj) searchBounds)
        | none => false
    candidates.foldl (innerStep sqrtFn strength alphaFactor bounds i) nodes

/-- The double loop of `applyForce` over all nodes. -/
def forceLoop (sqrtFn : ℚ → ℚ) (strength alphaFactor : ℚ)
    (nodes : List SimNode) : List SimNode :=
  (List.range nodes.length).foldl (outerStep sqrtFn strength alphaFactor) nodes

/-- Configuration of `BBoxCollisionForce` (`#strength`, `#alphaTarget`,
`#ticksToWait`). -/
structure ForceConfig where
  strength : ℚ
  alphaTarget : ℚ
  ticksToWait : ℕ
deriving DecidableEq, Repr

/-- Mutable state of `BBoxCollisionForce`: the node list,
`#ticksSinceNewNodes`, and the registered `onStart` listeners. -/
structure ForceState where
  nodes : List SimNode
  ticksSinceNewNodes : ℕ
  listeners : List ℕ
deriving DecidableEq, Repr

/-- Embeds `BBoxCollisionForce.initialize`: install the node set and reset the tick
counter. -/
def initializeForce (st : ForceState) (nodes : List SimNode) : ForceState :=
  { st with nodes := nodes, ticksSinceNewNodes := 0 }

/-- Embeds `BBoxCollisionForce.applyForce`.  While `#ticksSinceNewNodes` is below
`#ticksToWait` the call only increments the counter and returns.  On the call
where the counter equals `#ticksToWait`, notification of every `onStart`
listener is scheduled via `requestAnimationFrame` (modelled as the returned
batch — `some` of the listener list, each listener invoked once on the next
render frame) and the counter is incremented one final time.  The force loop
then runs with `alphaFactor = (alpha - 1 - alphaTarget)^4`. -/
def applyForce (sqrtFn : ℚ → ℚ) (cfg : ForceConfig) (alpha : ℚ)
    (st : ForceState) : ForceState × Option (List ℕ) :=
  if st.ticksSinceNewNodes < cfg.ticksToWait then
    ({ st with ticksSinceNewNodes := st.ticksSinceNewNodes + 1 }, none)
  else
    let notify := st.ticksSinceNewNodes = cfg.ticksToWait
    let st' := if notify then { st with ticksSinceNewNodes := st.ticksSinceNewNodes + 1 } else st
    let alphaFactor := (alpha - 1 - cfg.alphaTarget) ^ 4
    ({ st' with nodes := forceLoop sqrtFn cfg.strength alphaFactor st'.nodes },
      if notify then some st.listeners else none)

/-- Iterate `applyForce` over a list of per-tick alpha values, collecting the
scheduled listener batches. -/
def runApply (sqrtFn : ℚ → ℚ) (cfg : ForceConfig) :
    List ℚ → ForceState → ForceState × List (List ℕ)
  | [], st => (st, [])
  | a :: rest, st =>
    let step := applyForce sqrtFn cfg a st
    let next := runApply sqrtFn cfg rest step.1
    (next.1, (match step.2 with | some ls => [ls] | none => []) ++ next.2)

/-- Integer square root by exhaustive search (structurally recursive, so
concrete instances reduce inside the kernel). -/
def isqrt (n : ℕ) : ℕ := ((List.range (n + 1)).filter (fun k => k * k ≤ n)).length - 1

/-- A concrete instantiation for the `sqrtFn` parameter, exact whenever the
argument is the square of a rational (which holds at every point the
concrete evaluations below consume). -/
def sqrtQ (q : ℚ) : ℚ := (isqrt q.num.toNat : ℚ) / (isqrt q.den : ℚ)

theorem foldl_fixed {α β : Type} {f : β → α → β} {l : List α} {x : β}
    (h : ∀ a ∈ l, f x a = x) : l.foldl f x = x := by
  induction l with
  | nil => rfl
  | cons a t ih =>
      have hx : f x a = x := h a (List.mem_cons_self a t)
      simp only [List.foldl_cons, hx]
      exact ih fun b hb => h b (List.mem_cons_of_mem a hb)

theorem innerStep_of_sep {sqrtFn : ℚ → ℚ} {strength alphaFactor : ℚ} {bi : Rect2D}
    {i j : ℕ} {nodes : List SimNode}
    (h : ∀ nj ∈ nodes[j]?, pairEffect sqrtFn strength alphaFactor bi nj = .skip) :
    innerStep sqrtFn strength alphaFactor bi i nodes j = nodes := by
  unfold innerStep
  cases hj : nodes[j]? with
  | none => rfl
  | some nj =>
      have hp := h nj (by simp [hj])
      simp [hp]

theorem outerStep_of_sep {sqrtFn : ℚ → ℚ} {strength alphaFactor : ℚ} {i : ℕ}
    {nodes : List SimNode}
    (h : ∀ ni ∈ nodes[i]?, ∀ j, j ≠ i →
      ∀ nj ∈ nodes[j]?, pairEffect sqrtFn strength alphaFactor (nodeBounds ni) nj = .skip) :
    outerStep sqrtFn strength alphaFactor nodes i = nodes := by
  unfold outerStep
  cases hi : nodes[i]? with
  | none => rfl
  | some ni =>
      simp only []
      refine foldl_fixed fun j hj => ?_
      have hji : j ≠ i := by
        have hp := (List.mem_filter.mp hj).2
        simp only [Bool.and_eq_true, decide_eq_true_eq] at hp
        exact hp.1
      exact innerStep_of_sep fun nj hnj => h ni (by simp [hi]) j hji nj hnj

theorem forceLoop_of_sep {sqrtFn : ℚ → ℚ} {strength alphaFactor : ℚ}
    {nodes : List SimNode}
    (h : ∀ (i j : ℕ), i ≠ j → ∀ ni ∈ nodes[i]?, ∀ nj ∈ nodes[j]?,
      pairEffect sqrtFn strength alphaFactor (nodeBounds ni) nj = .skip) :
    forceLoop sqrtFn strength alphaFactor nodes = nodes := by
  unfold forceLoop
  refine foldl_fixed fun i _ => ?_
  exact outerStep_of_sep fun ni hni j hji nj hnj => h i j (fun e => hji e.symm) ni hni nj hnj

theorem pairEffect_of_no_intersection {sqrtFn : ℚ → ℚ} {strength alphaFactor : ℚ}
    {bi : Rect2D} {nj : SimNode}
    (h : bi.intersection ((nodeBounds nj).resizeCentered ⟨20, 20⟩) = none) :
    pairEffect sqrtFn strength alphaFactor bi nj = .skip := by
  unfold pairEffect
  rw [h]

theorem applyForce_nodes (sqrtFn : ℚ → ℚ) (cfg : ForceConfig) (alpha : ℚ)
    (st : ForceState) :
    (applyForce sqrtFn cfg alpha st).1.nodes =
      if st.ticksSinceNewNodes < cfg.ticksToWait then st.nodes
      else forceLoop sqrtFn cfg.strength ((alpha - 1 - cfg.alphaTarget) ^ 4) st.nodes := by
  unfold applyForce
  by_cases hlt : st.ticksSinceNewNodes < cfg.ticksToWait
  · simp [hlt]
  · by_cases heq : st.ticksSinceNewNodes = cfg.ticksToWait <;> simp [hlt, heq]

set_option maxRecDepth 1000000 in
unseal Rat.mul Rat.add Rat.sub Rat.inv in
/-- C1 counterexample.  The claim "for every node set whose bounding
boxes pairwise do not overlap, a single `applyForce` call leaves every
velocity unchanged" fails: two nodes whose 40×20 boxes are strictly
disjoint (a 10-unit gap) still interact because the force expands the other
node's box by the 20-unit margin; the degenerate-overlap candidate takes the
small-force friction branch and damps the first node's `vx` from `1` to
`1/50`.  (`sqrtQ` is exact on every square root the computation consumes:
`sqrtQ 400 = 20` and `sqrtQ 0 = 0`.) -/
theorem collisionForce_affects_nonoverlapping_nodes_within_margin :
    (nodeBounds ⟨0, 0, 1, 0, 40, 20⟩).intersection (nodeBounds ⟨50, 0, 0, 0, 40, 20⟩) = none ∧
    sqrtQ 400 = 20 ∧ sqrtQ 0 = 0 ∧
    (applyForce sqrtQ ⟨2, 0, 0⟩ 0
        ⟨[⟨0, 0, 1, 0, 40, 20⟩, ⟨50, 0, 0, 0, 40, 20⟩], 0, []⟩).1.nodes =
      [⟨0, 0, 1/50, 0, 40, 20⟩, ⟨50, 0, 0, 0, 40, 20⟩] ∧
    (1 : ℚ) / 50 ≠ 1 := by
  refine ⟨by decide, by decide, by decide, ?_, by decide⟩
  decide

/-- C1, amended.  For every node set whose bounding boxes are pairwise
separated beyond the force's fixed 20-unit margin — each node's box has empty
intersection with every other node's margin-expanded box — a single
`applyForce` call leaves every node (in particular every velocity)
unchanged, for any square-root routine, configuration, alpha and tick
state. -/
theorem collisionForce_fixes_velocities_of_margin_separated_nodes
    (sqrtFn : ℚ → ℚ) (cfg : ForceConfig) (alpha : ℚ) (st : ForceState)
    (hsep : ∀ (i : ℕ) (hi : i < st.nodes.length) (j : ℕ) (hj : j < st.nodes.length),
      i ≠ j → (nodeBounds st.nodes[i]).intersection
        ((nodeBounds st.nodes[j]).resizeCentered ⟨20, 20⟩) = none) :
    (applyForce sqrtFn cfg alpha st).1.nodes = st.nodes := by
  rw [applyForce_nodes]
  by_cases hlt : st.ticksSinceNewNodes < cfg.ticksToWait
  · simp [hlt]
  · rw [if_neg hlt]
    refine forceLoop_of_sep fun i j hij ni hni nj hnj => ?_
    obtain ⟨hi, hgi⟩ := List.getElem?_eq_some.mp hni
    obtain ⟨hj, hgj⟩ := List.getElem?_eq_some.mp hnj
    have := hsep i hi j hj hij
    rw [hgi, hgj] at this
    exact pairEffect_of_no_intersection this

set_option maxRecDepth 1000000 in
unseal Rat.mul Rat.add Rat.sub Rat.inv in
/-- Witness for the amended C1 theorem: two nodes 1000 units apart. -/
theorem collisionForce_fixes_velocities_of_margin_separated_nodes_witness :
    (applyForce sqrtQ ⟨2, 0, 0⟩ 0
        ⟨[⟨0, 0, 1, 0, 40, 20⟩, ⟨1000, 0, 3, 4, 40, 20⟩], 0, []⟩).1.nodes =
      [⟨0, 0, 1, 0, 40, 20⟩, ⟨1000, 0, 3, 4, 40, 20⟩] :=
  collisionForce_fixes_velocities_of_margin_separated_nodes sqrtQ ⟨2, 0, 0⟩ 0
    ⟨[⟨0, 0, 1, 0, 40, 20⟩, ⟨1000, 0, 3, 4, 40, 20⟩], 0, []⟩
    (by decide)

theorem intersection_eq_some {a b r : Rect2D} (h : a.intersection b = some r) :
    r = ⟨⟨max a.position.x b.position.x, max a.position.y b.position.y⟩,
        ⟨min (a.position.x + a.size.x) (b.position.x + b.size.x) -
            max a.position.x b.position.x,
          min (a.position.y + a.size.y) (b.position.y + b.size.y) -
            max a.position.y b.position.y⟩⟩ ∧
      max a.position.x b.position.x ≤
        min (a.position.x + a.size.x) (b.position.x + b.size.x) ∧
      max a.position.y b.position.y ≤
        min (a.position.y + a.size.y) (b.position.y + b.size.y) := by
  simp only [Rect2D.intersection] at h
  split at h
  · exact absurd h (by simp)
  · rename_i hcond
    push_neg at hcond
    exact ⟨(Option.some.inj h).symm, hcond.1, hcond.2⟩

theorem intersection_size_nonneg {a b r : Rect2D} (h : a.intersection b = some r) :
    0 ≤ r.size.x ∧ 0 ≤ r.size.y := by
  obtain ⟨hr, h1, h2⟩ := intersection_eq_some h
  subst hr
  exact ⟨by simpa using sub_nonneg.mpr h1, by simpa using sub_nonneg.mpr h2⟩

set_option maxRecDepth 1000000 in
unseal Rat.mul Rat.add Rat.sub Rat.inv in
/-- C2 counterexample.  For a concrete colliding pair (node boxes
20×10 centered at the origin and at (14, 0); the margin-expanded
intersection has area 160 and the direction vector is (2, 0), so the
capped area is 5 and the distance 2), the configured strength 2 and a unit
alpha factor yield the impulse (-2, 0): its magnitude is 2, which exceeds
the claimed bound 1, and differs from the claim's un-clamped formula value
min(area, 5) / max(distance, 1) * strength * alphaFactor = 5, because the
source clamps `min(intersectionArea / distance * alphaFactor, 1)` before
multiplying by the strength.  (`sqrtQ` is exact at both consumed points:
the direction's squared magnitude 4 and the force's squared magnitude 4.) -/
theorem collision_impulse_exceeds_unit_magnitude :
    pairEffect sqrtQ 2 1 (nodeBounds ⟨0, 0, 0, 0, 20, 10⟩) ⟨14, 0, 0, 0, 20, 10⟩ =
      .impulse ⟨-2, 0⟩ ∧
    (Vector2D.mk (-2) 0).magSq = 4 ∧ ¬ ((Vector2D.mk (-2) 0).magSq ≤ 1) ∧
    min (160 : ℚ) 5 / max (2 : ℚ) 1 * 2 * 1 = 5 ∧
    sqrtQ (Vector2D.mk 2 0).magSq = 2 := by
  exact ⟨by decide, by decide, by decide, by decide, by decide⟩

/-- C2, amended.  For every colliding pair processed by `applyForce` with
non-coincident centers that reaches the impulse branch, the applied impulse
has squared magnitude `(strength * min(alphaFactor * min(intersectionArea,
5) / max(distance, 1), 1))^2` — the factor `min(intersectionArea, 5) /
max(distance, 1) * alphaFactor` is clamped to 1 before the multiplication by
the configured strength — and hence the total applied magnitude never
exceeds the strength (not 1, as claimed).  Stated for any square-root
routine that is exact at the direction's squared magnitude. -/
theorem collision_impulse_magnitude_formula
    (sqrtFn : ℚ → ℚ) (strength alphaFactor : ℚ) (bi : Rect2D) (nj : SimNode)
    (inter : Rect2D) (f : Vector2D)
    (hint : bi.intersection ((nodeBounds nj).resizeCentered ⟨20, 20⟩) = some inter)
    (hαF : 0 ≤ alphaFactor)
    (hm : sqrtFn (inter.center.sub bi.center).magSq ^ 2 =
      (inter.center.sub bi.center).magSq)
    (himp : pairEffect sqrtFn strength alphaFactor bi nj = .impulse f) :
    f.magSq = (strength *
        min (min inter.area 5 / max (sqrtFn (inter.center.sub bi.center).magSq) 1 *
          alphaFactor) 1) ^ 2 ∧
      f.magSq ≤ strength ^ 2 := by
  have harea : 0 ≤ inter.area := by
    obtain ⟨h1, h2⟩ := intersection_size_nonneg hint
    exact mul_nonneg h1 h2
  have hfm_le : min (min inter.area 5 /
      max (sqrtFn (inter.center.sub bi.center).magSq) 1 * alphaFactor) 1 ≤ 1 :=
    min_le_right _ _
  have hfm_nonneg : 0 ≤ min (min inter.area 5 /
      max (sqrtFn (inter.center.sub bi.center).magSq) 1 * alphaFactor) 1 := by
    refine le_min ?_ (by norm_num)
    have hA : 0 ≤ min inter.area 5 := le_min harea (by norm_num)
    have hD : (0 : ℚ) < max (sqrtFn (inter.center.sub bi.center).magSq) 1 :=
      lt_of_lt_of_le one_pos (le_max_right _ _)
    exact mul_nonneg (div_nonneg hA hD.le) hαF
  unfold pairEffect at himp
  rw [hint] at himp
  simp only [] at himp
  by_cases hd : (inter.center.sub bi.center).magSq = 0
  · rw [if_pos hd] at himp
    exact absurd himp (by simp)
  · rw [if_neg hd] at himp
    by_cases hfr : sqrtFn (((inter.center.sub bi.center).smul
        (1 / sqrtFn (inter.center.sub bi.center).magSq)).smul
          (min (min inter.area 5 /
            max (sqrtFn (inter.center.sub bi.center).magSq) 1 * alphaFactor) 1 *
            strength * (-1))).magSq < 1 / 100
    · rw [if_pos hfr] at himp
      exact absurd himp (by simp)
    · rw [if_neg hfr] at himp
      have hf := (PairEffect.impulse.inj himp).symm
      have hm0 : sqrtFn (inter.center.sub bi.center).magSq ≠ 0 := by
        intro h0
        apply hd
        rw [← hm, h0]
        ring
      have hmm : sqrtFn (inter.center.sub bi.center).magSq *
          sqrtFn (inter.center.sub bi.center).magSq =
          (inter.center.sub bi.center).x * (inter.center.sub bi.center).x +
            (inter.center.sub bi.center).y * (inter.center.sub bi.center).y :=
        calc sqrtFn (inter.center.sub bi.center).magSq *
              sqrtFn (inter.center.sub bi.center).magSq =
            sqrtFn (inter.center.sub bi.center).magSq ^ 2 := by ring
          _ = (inter.center.sub bi.center).magSq := hm
          _ = (inter.center.sub bi.center).x * (inter.center.sub bi.center).x +
              (inter.center.sub bi.center).y * (inter.center.sub bi.center).y := rfl
      have hfmag : f.magSq = (strength * min (min inter.area 5 /
          max (sqrtFn (inter.center.sub bi.center).magSq) 1 * alphaFactor) 1) ^ 2 := by
        rw [hf]
        show ((inter.center.sub bi.center).x *
              (1 / sqrtFn (inter.center.sub bi.center).magSq) * _) *
            ((inter.center.sub bi.center).x *
              (1 / sqrtFn (inter.center.sub bi.center).magSq) * _) +
            ((inter.center.sub bi.center).y *
              (1 / sqrtFn (inter.center.sub bi.center).magSq) * _) *
            ((inter.center.sub bi.center).y *
              (1 / sqrtFn (inter.center.sub bi.center).magSq) * _) = _
        field_simp
        nlinarith [hmm]
      refine ⟨hfmag, ?_⟩
      rw [hfmag]
      have h1 : (min (min inter.area 5 /
          max (sqrtFn (inter.center.sub bi.center).magSq) 1 * alphaFactor) 1) ^ 2 ≤ 1 := by
        nlinarith [hfm_le, hfm_nonneg]
      calc (strength * min (min inter.area 5 /
              max (sqrtFn (inter.center.sub bi.center).magSq) 1 * alphaFactor) 1) ^ 2 =
            strength ^ 2 * (min (min inter.area 5 /
              max (sqrtFn (inter.center.sub bi.center).magSq) 1 * alphaFactor) 1) ^ 2 := by
            ring
        _ ≤ strength ^ 2 * 1 := mul_le_mul_of_nonneg_left h1 (sq_nonneg strength)
        _ = strength ^ 2 := by ring

set_option maxRecDepth 1000000 in
unseal Rat.mul Rat.add Rat.sub Rat.inv in
/-- Witness for the amended C2 theorem, at the concrete pair of the
counterexample: the impulse (-2, 0) has squared magnitude `(2 * 1)^2 = 4`,
below the strength bound `2^2`. -/
theorem collision_impulse_magnitude_formula_witness :
    (Vector2D.mk (-2) 0).magSq =
      (2 * min (min (Rect2D.mk ⟨-6, -5⟩ ⟨16, 10⟩).area 5 /
        max (sqrtQ (((Rect2D.mk ⟨-6, -5⟩ ⟨16, 10⟩).center.sub
          (nodeBounds ⟨0, 0, 0, 0, 20, 10⟩).center)).magSq) 1 * 1) 1) ^ 2 ∧
    (Vector2D.mk (-2) 0).magSq ≤ (2 : ℚ) ^ 2 :=
  collision_impulse_magnitude_formula sqrtQ 2 1 (nodeBounds ⟨0, 0, 0, 0, 20, 10⟩)
    ⟨14, 0, 0, 0, 20, 10⟩ (Rect2D.mk ⟨-6, -5⟩ ⟨16, 10⟩) ⟨-2, 0⟩
    (by decide) (by norm_num) (by decide) (by decide)

theorem runApply_append {sqrtFn : ℚ → ℚ} {cfg : ForceConfig} (l₁ : List ℚ) :
    ∀ (l₂ : List ℚ) (st : ForceState),
      runApply sqrtFn cfg (l₁ ++ l₂) st =
        ((runApply sqrtFn cfg l₂ (runApply sqrtFn cfg l₁ st).1).1,
          (runApply sqrtFn cfg l₁ st).2 ++
            (runApply sqrtFn cfg l₂ (runApply sqrtFn cfg l₁ st).1).2) := by
  induction l₁ with
  | nil => intro l₂ st; simp [runApply]
  | cons a rest ih =>
      intro l₂ st
      simp only [List.cons_append, runApply, List.append_eq]
      rw [ih l₂]
      simp [List.append_assoc]

theorem applyForce_below_wait {sqrtFn : ℚ → ℚ} {cfg : ForceConfig} {a : ℚ}
    {st : ForceState} (h : st.ticksSinceNewNodes < cfg.ticksToWait) :
    applyForce sqrtFn cfg a st =
      ({ st with ticksSinceNewNodes := st.ticksSinceNewNodes + 1 }, none) := by
  unfold applyForce
  rw [if_pos h]

theorem applyForce_at_wait {sqrtFn : ℚ → ℚ} {cfg : ForceConfig} {a : ℚ}
    {st : ForceState} (h : st.ticksSinceNewNodes = cfg.ticksToWait) :
    applyForce sqrtFn cfg a st =
      (⟨forceLoop sqrtFn cfg.strength ((a - 1 - cfg.alphaTarget) ^ 4) st.nodes,
        st.ticksSinceNewNodes + 1, st.listeners⟩, some st.listeners) := by
  unfold applyForce
  rw [if_neg (by simp [h])]
  simp [h]

theorem applyForce_past_wait {sqrtFn : ℚ → ℚ} {cfg : ForceConfig} {a : ℚ}
    {st : ForceState} (h : cfg.ticksToWait < st.ticksSinceNewNodes) :
    applyForce sqrtFn cfg a st =
      (⟨forceLoop sqrtFn cfg.strength ((a - 1 - cfg.alphaTarget) ^ 4) st.nodes,
        st.ticksSinceNewNodes, st.listeners⟩, none) := by
  unfold applyForce
  rw [if_neg (by simp [Nat.not_lt.mpr h.le])]
  simp [Nat.ne_of_gt h]

theorem runApply_below_wait {sqrtFn : ℚ → ℚ} {cfg : ForceConfig} (as : List ℚ) :
    ∀ (st : ForceState),
      st.ticksSinceNewNodes + as.length ≤ cfg.ticksToWait →
      runApply sqrtFn cfg as st =
        ({ st with ticksSinceNewNodes := st.ticksSinceNewNodes + as.length }, []) := by
  induction as with
  | nil => intro st _; simp [runApply]
  | cons a rest ih =>
      intro st h
      have hlt : st.ticksSinceNewNodes < cfg.ticksToWait := by
        simp only [List.length_cons] at h
        omega
      have ih' := ih { st with ticksSinceNewNodes := st.ticksSinceNewNodes + 1 }
        (by simp only [List.length_cons] at h ⊢; omega)
      simp only [runApply, applyForce_below_wait hlt, ih', List.length_cons,
        Prod.mk.injEq, ForceState.mk.injEq, List.nil_append]
      exact ⟨⟨trivial, by omega, trivial⟩, trivial⟩

theorem runApply_past_wait {sqrtFn : ℚ → ℚ} {cfg : ForceConfig} (as : List ℚ) :
    ∀ (st : ForceState), cfg.ticksToWait < st.ticksSinceNewNodes →
      (runApply sqrtFn cfg as st).2 = [] ∧
      (runApply sqrtFn cfg as st).1.ticksSinceNewNodes = st.ticksSinceNewNodes := by
  induction as with
  | nil => intro st _; simp [runApply]
  | cons a rest ih =>
      intro st h
      have ih' := ih
        ⟨forceLoop sqrtFn cfg.strength ((a - 1 - cfg.alphaTarget) ^ 4) st.nodes,
          st.ticksSinceNewNodes, st.listeners⟩ h
      simp only [runApply, applyForce_past_wait h]
      exact ⟨by simp [ih'.1], by simp [ih'.2]⟩

/-- C3.  After `initialize` installs a new node set, `applyForce` leaves the
node list (hence every velocity) untouched and schedules no listener batch
during the first `ticksToWait` calls, and on any longer run exactly one
listener batch is scheduled — `some` of the full `onStart` listener list,
handed to `requestAnimationFrame` so that each registered listener is
invoked exactly once on the next render frame.  (`GraphForceBehaviour`
configures `ticksToWait(200)`; the witness instantiates the theorem at
200.) -/
theorem collisionForce_quiescence_and_onStart_once
    (sqrtFn : ℚ → ℚ) (cfg : ForceConfig) (st : ForceState) (nodes : List SimNode) :
    (∀ pre : List ℚ, pre.length ≤ cfg.ticksToWait →
      runApply sqrtFn cfg pre (initializeForce st nodes) =
        (⟨nodes, pre.length, st.listeners⟩, [])) ∧
    (∀ alphas : List ℚ, cfg.ticksToWait < alphas.length →
      (runApply sqrtFn cfg alphas (initializeForce st nodes)).2 = [st.listeners]) := by
  have hpre : ∀ pre : List ℚ, pre.length ≤ cfg.ticksToWait →
      runApply sqrtFn cfg pre (initializeForce st nodes) =
        (⟨nodes, pre.length, st.listeners⟩, []) := by
    intro pre hlen
    have := @runApply_below_wait sqrtFn cfg pre
      (initializeForce st nodes) (by simpa [initializeForce] using hlen)
    simpa [initializeForce] using this
  refine ⟨hpre, ?_⟩
  intro alphas hlen
  obtain ⟨a, rest, hdrop⟩ : ∃ a rest, alphas.drop cfg.ticksToWait = a :: rest := by
    cases hd : alphas.drop cfg.ticksToWait with
    | nil =>
        exfalso
        have := List.length_drop cfg.ticksToWait alphas
        rw [hd] at this
        simp at this
        omega
    | cons a rest => exact ⟨a, rest, rfl⟩
  have hsplit : alphas = alphas.take cfg.ticksToWait ++ a :: rest := by
    rw [← hdrop, List.take_append_drop]
  have htake : (alphas.take cfg.ticksToWait).length = cfg.ticksToWait :=
    List.length_take_of_le hlen.le
  rw [hsplit, runApply_append]
  have h1 := hpre (alphas.take cfg.ticksToWait) htake.le
  rw [h1]
  simp only [htake]
  have h2 : applyForce sqrtFn cfg a
      (⟨nodes, cfg.ticksToWait, st.listeners⟩ : ForceState) =
      (⟨forceLoop sqrtFn cfg.strength ((a - 1 - cfg.alphaTarget) ^ 4) nodes,
        cfg.ticksToWait + 1, st.listeners⟩, some st.listeners) :=
    applyForce_at_wait rfl
  simp only [runApply, h2]
  have h3 := @runApply_past_wait sqrtFn cfg rest
    ⟨forceLoop sqrtFn cfg.strength ((a - 1 - cfg.alphaTarget) ^ 4) nodes,
      cfg.ticksToWait + 1, st.listeners⟩ (by simp)
  simp [h3.1]

set_option maxRecDepth 1000000 in
unseal Rat.mul Rat.add Rat.sub Rat.inv in
/-- Witness for C3, at the configured 200-tick wait with one registered
listener (id 7) and one node: 200 calls leave the node untouched and
schedule nothing; a 201-call run schedules exactly the one batch `[7]`. -/
theorem collisionForce_quiescence_and_onStart_once_witness :
    runApply sqrtQ ⟨2, 0, 200⟩ (List.replicate 200 0)
        (initializeForce ⟨[], 0, [7]⟩ [⟨0, 0, 1, 0, 40, 20⟩]) =
      (⟨[⟨0, 0, 1, 0, 40, 20⟩], 200, [7]⟩, []) ∧
    (runApply sqrtQ ⟨2, 0, 200⟩ (List.replicate 201 0)
        (initializeForce ⟨[], 0, [7]⟩ [⟨0, 0, 1, 0, 40, 20⟩])).2 = [[7]] := by
  refine ⟨?_, ?_⟩
  · have h := (collisionForce_quiescence_and_onStart_once sqrtQ ⟨2, 0, 200⟩
      ⟨[], 0, [7]⟩ [⟨0, 0, 1, 0, 40, 20⟩]).1 (List.replicate 200 0) (by simp)
    simpa using h
  · exact (collisionForce_quiescence_and_onStart_once sqrtQ ⟨2, 0, 200⟩
      ⟨[], 0, [7]⟩ [⟨0, 0, 1, 0, 40, 20⟩]).2 (List.replicate 201 0) (by simp)

/-! ### GraphBehaviourManager (src/rendering/graph-behaviours/graph-behaviour.ts)

Behaviour constructors are identified by numbers; an instance is reduced to
what `#getState` can observe of it: the result of `getState?.()` — `some`
state value when the behaviour implements `getState`, `none` otherwise. -/

/-- A behaviour type as the manager sees it: its constructor identity,
whether it implements `getState`, and the state value it would expose. -/
structure BehaviourSpec where
  ctor : ℕ
  hasGetState : Bool
  state : ℕ
deriving DecidableEq, Repr

/-- The manager's two parallel `IndexedSet`s: registered constructors and
the `getState?.()` view of the corresponding instances. -/
structure Manager where
  ctors : List ℕ
  states : List (Option ℕ)
deriving DecidableEq, Repr

/-- A fresh `GraphBehaviourManager`. -/
def emptyManager : Manager := ⟨[], []⟩

/-- Embeds `GraphBehaviourManager.register`: registering an
already-registered constructor throws; otherwise the constructor is
appended to `#constructors` and the new instance to `#behaviours`. -/
def register (m : Manager) (b : BehaviourSpec) : Except String Manager :=
  if b.ctor ∈ m.ctors then
    .error "Cannot add the same type of graph behaviour twice."
  else
    .ok ⟨m.ctors ++ [b.ctor],
      m.states ++ [if b.hasGetState then some b.state else none]⟩

/-- Register a list of behaviours in order, stopping at the first error. -/
def registerAll : Manager → List BehaviourSpec → Except String Manager
  | m, [] => .ok m
  | m, b :: bs =>
    match register m b with
    | .ok m' => registerAll m' bs
    | .error e => .error e

/-- Linear index search starting at offset `k` (helper for
`indexOfOrNeg`). -/
def indexSearch (c : ℕ) : List ℕ → ℕ → Int
  | [], _ => -1
  | a :: t, k => if a = c then (k : Int) else indexSearch c t (k + 1)

/-- Embeds `IndexedSet.indexOf`: the index of the element, or `-1` when it
is absent. -/
def indexOfOrNeg (l : List ℕ) (c : ℕ) : Int := indexSearch c l 0

/-- Embeds `GraphBehaviourManager.#getState`: compare the requesting
behaviour's registration index with the target's; when the requester was
registered earlier (`requestingIndex < index`) throw, otherwise return the
target instance's `getState?.()`.  (When the comparison passes but the
index is out of range — unreachable for registered pairs — the source would
dereference `undefined`; the embedding reports that as an error too.) -/
def getStateFor (m : Manager) (requesting target : ℕ) : Except String (Option ℕ) :=
  let requestingIndex := indexOfOrNeg m.ctors requesting
  let index := indexOfOrNeg m.ctors target
  if requestingIndex < index then
    .error "Cannot get state for behaviour loaded after requesting behaviour."
  else
    match index with
    | .ofNat i =>
      match m.states[i]? with
      | some s => .ok s
      | none => .error "TypeError: undefined has no getState"
    | .negSucc _ => .error "TypeError: undefined has no getState"

theorem indexSearch_eq {l : List ℕ} :
    ∀ {i : ℕ} {c : ℕ} (k : ℕ), l.Nodup → l[i]? = some c →
      indexSearch c l k = ((k : Int) + i) := by
  induction l with
  | nil => intro i c k _ h; simp at h
  | cons a t ih =>
      intro i c k hnd h
      cases i with
      | zero =>
          simp only [List.getElem?_cons_zero, Option.some.injEq] at h
          subst h
          simp [indexSearch]
      | succ n =>
          simp only [List.getElem?_cons_succ] at h
          have hmem : c ∈ t := List.getElem?_mem h
          have hne : a ≠ c := by
            intro e
            exact (List.nodup_cons.mp hnd).1 (e ▸ hmem)
          have ht : t.Nodup := (List.nodup_cons.mp hnd).2
          simp only [indexSearch, if_neg hne]
          rw [ih (k + 1) ht h]
          push_cast
          ring

theorem register_ok {m : Manager} {b : BehaviourSpec} {m' : Manager}
    (h : register m b = .ok m') :
    b.ctor ∉ m.ctors ∧
      m' = ⟨m.ctors ++ [b.ctor],
        m.states ++ [if b.hasGetState then some b.state else none]⟩ := by
  unfold register at h
  split at h
  · exact absurd h (by simp)
  · rename_i hmem
    exact ⟨hmem, (Except.ok.inj h).symm⟩

theorem registerAll_ctors :
    ∀ (bs : List BehaviourSpec) (m m' : Manager), registerAll m bs = .ok m' →
      m'.ctors = m.ctors ++ bs.map (fun b => b.ctor)
  | [], m, m', h => by
      simp only [registerAll] at h
      cases h
      simp
  | b :: bs, m, m', h => by
      simp only [registerAll] at h
      cases hreg : register m b with
      | error e => rw [hreg] at h; exact absurd h (by simp)
      | ok m2 =>
          rw [hreg] at h
          obtain ⟨hmem, hm2⟩ := register_ok hreg
          have hrec := registerAll_ctors bs m2 m' h
          subst hm2
          simp only [List.map_cons] at hrec ⊢
          rw [hrec]
          simp

theorem registerAll_nodup :
    ∀ (bs : List BehaviourSpec) (m m' : Manager), registerAll m bs = .ok m' →
      m.ctors.Nodup → m'.ctors.Nodup
  | [], m, m', h => by
      simp only [registerAll] at h
      cases h
      exact id
  | b :: bs, m, m', h => by
      intro hnd
      simp only [registerAll] at h
      cases hreg : register m b with
      | error e => rw [hreg] at h; exact absurd h (by simp)
      | ok m2 =>
          rw [hreg] at h
          obtain ⟨hmem, hm2⟩ := register_ok hreg
          refine registerAll_nodup bs m2 m' h ?_
          subst hm2
          refine hnd.append (List.nodup_singleton _) ?_
          intro a ha hb
          rw [List.mem_singleton] at hb
          subst hb
          exact hmem ha

/-- C4.  For every pair of behaviours registered through `registerAll`, a
`getState` request for the behaviour at a later registration position
throws the "loaded after requesting behaviour" error — regardless of
whether the later behaviour implements `getState()` (the theorem never
inspects `hasGetState`). -/
theorem getState_throws_for_later_registered_behaviour
    (bs : List BehaviourSpec) (m : Manager)
    (hreg : registerAll emptyManager bs = .ok m)
    (i j : ℕ) (bi bj : BehaviourSpec)
    (hi : bs[i]? = some bi) (hj : bs[j]? = some bj) (hij : i < j) :
    getStateFor m bi.ctor bj.ctor =
      .error "Cannot get state for behaviour loaded after requesting behaviour." := by
  have hctors : m.ctors = bs.map (fun b => b.ctor) := by
    simpa [emptyManager] using registerAll_ctors bs emptyManager m hreg
  have hnd : m.ctors.Nodup :=
    registerAll_nodup bs emptyManager m hreg (by simp [emptyManager])
  have hi' : m.ctors[i]? = some bi.ctor := by
    rw [hctors, List.getElem?_map, hi]
    rfl
  have hj' : m.ctors[j]? = some bj.ctor := by
    rw [hctors, List.getElem?_map, hj]
    rfl
  have hidxi : indexOfOrNeg m.ctors bi.ctor = (i : Int) := by
    have := indexSearch_eq (l := m.ctors) (i := i) (c := bi.ctor) 0 hnd hi'
    simpa [indexOfOrNeg] using this
  have hidxj : indexOfOrNeg m.ctors bj.ctor = (j : Int) := by
    have := indexSearch_eq (l := m.ctors) (i := j) (c := bj.ctor) 0 hnd hj'
    simpa [indexOfOrNeg] using this
  unfold getStateFor
  rw [hidxi, hidxj, if_pos (by exact_mod_cast hij)]

/-- Witness for C4: two behaviours (ids 0 and 1); the second implements
`getState` and exposes the state 7, yet a request from the first for the
second still throws. -/
theorem getState_throws_for_later_registered_behaviour_witness :
    getStateFor ⟨[0, 1], [none, some 7]⟩ 0 1 =
      .error "Cannot get state for behaviour loaded after requesting behaviour." :=
  getState_throws_for_later_registered_behaviour
    [⟨0, false, 0⟩, ⟨1, true, 7⟩] ⟨[0, 1], [none, some 7]⟩ rfl
    0 1 ⟨0, false, 0⟩ ⟨1, true, 7⟩ (by decide) (by decide) (by decide)

/-! ### GraphSelectionBehaviour: the 'selection' rectangle event (C5) -/

unseal Rat.mul Rat.add Rat.sub Rat.inv in
/-- C5 evaluation.  The selection rectangle [0,10]×[4,6] and a node
bounding box [4,6]×[0,10] cross each other: their genuine intersection (by
the source's own `Rect2D.intersection`) is the positive-area square
[4,6]×[4,6], and the spec-side overlap predicate holds.  Yet
`Rect2D.intersectsRect` — which only tests whether the rectangle contains a
corner of the other box, contradicting its own doc comment "Check if this
rectangle intersects another rectangle" — returns false, so the `'selection'`
handler leaves the node unselected where the claim requires it to be
selected. -/
theorem selectionRect_misses_crossing_node :
    rectsOverlapSpec ⟨⟨0, 4⟩, ⟨10, 2⟩⟩ ⟨⟨4, 0⟩, ⟨2, 10⟩⟩ ∧
    (Rect2D.mk ⟨0, 4⟩ ⟨10, 2⟩).intersection ⟨⟨4, 0⟩, ⟨2, 10⟩⟩ =
      some ⟨⟨4, 4⟩, ⟨2, 2⟩⟩ ∧
    ¬ (Rect2D.mk ⟨0, 4⟩ ⟨10, 2⟩).intersectsRect ⟨⟨4, 0⟩, ⟨2, 10⟩⟩ ∧
    selectionRectHandler ⟨⟨0, 4⟩, ⟨10, 2⟩⟩ [(0, ⟨⟨4, 0⟩, ⟨2, 10⟩⟩)] = [] :=
  ⟨by decide, by decide, by decide, by decide⟩

/-! ### GraphDragBehaviour: pointerup / pointerupoutside (C6) -/

/-- Pinned-position override (fx, fy) of one d3 simulation node. -/
structure PinState where
  fx : Option ℚ
  fy : Option ℚ
deriving DecidableEq, Repr

/-- The state `GraphDragBehaviour`'s pointer-up handlers read and write:
the drag flag, the dragged node (`#graphics`/`#node`/`#index`, reduced to
the node index), whether camera panning is paused, the per-node pin
overrides, and the selected node indices. -/
structure DragScene where
  isDragging : Bool
  dragged : Option ℕ
  panPaused : Bool
  pins : List PinState
  selection : List ℕ
deriving DecidableEq, Repr

/-- Embeds the `'pointerup'` handler of `GraphDragBehaviour`: resume
viewport dragging, clear the drag flag, null the dragged node's `fx`/`fy`;
then, if the dragged graphic is selected, run
`for (const graphics of selection) { if (graphics === graphics) continue; … }`
— the guard compares the loop variable with itself, so every iteration
skips and the body (which would in any case clear
`this.#nodes[this.#index]`, the dragged node itself) never executes. -/
def pointerupHandler (sc : DragScene) : DragScene :=
  match sc.dragged with
  | none => sc
  | some i =>
    if sc.isDragging then
      let sc1 : DragScene :=
        { sc with
          panPaused := false
          isDragging := false
          pins := modifyIdx (fun _ => ⟨none, none⟩) i sc.pins }
      if i ∈ sc1.selection then
        sc1.selection.foldl (fun acc g =>
          if g = g then acc
          else { acc with pins := modifyIdx (fun _ => ⟨none, none⟩) i acc.pins }) sc1
      else sc1
    else sc

/-- Embeds the `'pointerupoutside'` handler of `GraphDragBehaviour`: clear
the drag flag and the dragged node's `fx`/`fy` — it neither resumes
viewport dragging nor touches co-selected nodes. -/
def pointerupoutsideHandler (sc : DragScene) : DragScene :=
  match sc.dragged with
  | none => sc
  | some i =>
    if sc.isDragging then
      { sc with
        isDragging := false
        pins := modifyIdx (fun _ => ⟨none, none⟩) i sc.pins }
    else sc

/-- C6 evaluation.  Dragging node 0 while nodes 0 and 1 are co-selected
(both pinned, panning paused): the `'pointerup'` handler clears node 0's
pin and resumes panning but leaves co-selected node 1 pinned (the
self-comparison guard makes the clearing loop dead code), and the
`'pointerupoutside'` handler leaves panning paused — both contradicting the
claim that every co-selected override is cleared and panning resumed on
pointer-up inside or outside the surface. -/
theorem pointerup_leaves_coselected_pin_and_outside_keeps_pan_paused :
    pointerupHandler ⟨true, some 0, true, [⟨some 1, some 1⟩, ⟨some 2, some 2⟩], [0, 1]⟩ =
      ⟨false, some 0, false, [⟨none, none⟩, ⟨some 2, some 2⟩], [0, 1]⟩ ∧
    pointerupoutsideHandler ⟨true, some 0, true,
        [⟨some 1, some 1⟩, ⟨some 2, some 2⟩], [0, 1]⟩ =
      ⟨false, some 0, true, [⟨none, none⟩, ⟨some 2, some 2⟩], [0, 1]⟩ ∧
    (some 2 : Option ℚ) ≠ none ∧ True ≠ False :=
  ⟨by decide, by decide, by decide, by decide⟩

/-! ### NodeGraph.setData and position snapshots (src/rendering/node-graph.ts) -/

/-- A d3 node datum as `setData` sees it: identity and position. -/
structure GNode where
  id : ℕ
  x : ℚ
  y : ℚ
deriving DecidableEq, Repr

/-- Renderer state relevant to `setData`: the first-render flag, the d3
node data, the visuals' positions, and the simulation status (whether
`stop()` was called, and how many synchronous warm-start ticks ran). -/
structure GraphState where
  firstRender : Bool
  d3Nodes : List GNode
  graphicsPos : List (ℚ × ℚ)
  simStopped : Bool
  warmTicks : ℕ
deriving DecidableEq, Repr

/-- Embeds `NodeGraph.render` (restricted to what C7 observes): copy each
simulation node's position into its visual. -/
def renderGraph (st : GraphState) : GraphState :=
  { st with graphicsPos := st.d3Nodes.map (fun n => (n.x, n.y)) }

/-- Embeds `NodeGraph.#setNodePositions`: with no stored snapshot, report
failure; otherwise copy each covered node's snapshot position into the node
and report whether every node was covered. -/
def setNodePositionsStep (snap : Option (ℕ → Option (ℚ × ℚ))) (ns : List GNode) :
    List GNode × Bool :=
  match snap with
  | none => (ns, false)
  | some f =>
    (ns.map (fun n =>
      match f n.id with
      | some p => { n with x := p.1, y := p.2 }
      | none => n),
      ns.all (fun n => (f n.id).isSome))

/-- Embeds `simulation.alpha(4).restart().tick(200).alpha(1)`: the
simulation is restarted (un-stopped), 200 synchronous ticks run, and the
node positions advance by the ambient d3 integration (`advance`, an
external dependency kept abstract). -/
def warmStart (advance : List GNode → List GNode) (st : GraphState) : GraphState :=
  { st with
    simStopped := false
    warmTicks := st.warmTicks + 200
    d3Nodes := advance st.d3Nodes }

/-- Embeds `NodeGraph.setData`: install the supplied node set, rebuild the
visuals (each at its node's current position), render once, and then — only
on the first `setData` call — apply the saved-position snapshot; when it
covers every node, stop the simulation and return, otherwise (and on every
later call) warm-start the simulation with 200 synchronous ticks. -/
def setData (advance : List GNode → List GNode)
    (snap : Option (ℕ → Option (ℚ × ℚ))) (st : GraphState)
    (nodes : List GNode) : GraphState :=
  let st1 : GraphState := { st with d3Nodes := nodes }
  let st2 : GraphState := { st1 with graphicsPos := st1.d3Nodes.map (fun n => (n.x, n.y)) }
  let st3 := renderGraph st2
  if st3.firstRender then
    let st4 : GraphState := { st3 with firstRender := false }
    let r := setNodePositionsStep snap st4.d3Nodes
    if r.2 then { st4 with d3Nodes := r.1, simStopped := true }
    else warmStart advance { st4 with d3Nodes := r.1 }
  else warmStart advance st3

unseal Rat.mul Rat.add Rat.sub Rat.inv in
/-- C7 counterexample.  On the second `setData` call the saved snapshot
covers every supplied node, yet the simulation is not stopped and the
200-tick warm start runs, because `#setNodePositions` is only consulted
while `#firstRender` is true: after a first call (which does stop the
simulation), a second call with the same fully-covering snapshot leaves
`simStopped = false` and advances 200 warm-start ticks. -/
theorem setData_second_call_ignores_snapshot :
    (setData id (some fun _ => some (5, 6)) ⟨true, [], [], false, 0⟩
        [⟨1, 0, 0⟩]).simStopped = true ∧
    ([⟨1, 0, 0⟩] : List GNode).all (fun n => ((fun _ => some ((5 : ℚ), (6 : ℚ))) n.id).isSome) = true ∧
    (setData id (some fun _ => some (5, 6))
        (setData id (some fun _ => some (5, 6)) ⟨true, [], [], false, 0⟩ [⟨1, 0, 0⟩])
        [⟨1, 0, 0⟩]).simStopped = false ∧
    (setData id (some fun _ => some (5, 6))
        (setData id (some fun _ => some (5, 6)) ⟨true, [], [], false, 0⟩ [⟨1, 0, 0⟩])
        [⟨1, 0, 0⟩]).warmTicks = 200 :=
  ⟨by decide, by decide, by decide, by decide⟩

/-- C7, amended.  On the first `setData` call since construction, when the
saved snapshot covers every supplied node, the simulation is stopped
immediately — no warm-start ticks run — and once the ever-running render
ticker next copies positions into the visuals, every visual's position
equals the snapshot position of its node exactly. -/
theorem setData_first_call_snapshot_stops_simulation
    (advance : List GNode → List GNode) (f : ℕ → Option (ℚ × ℚ))
    (st : GraphState) (nodes : List GNode)
    (hfirst : st.firstRender = true)
    (hcov : ∀ n ∈ nodes, (f n.id).isSome = true) :
    (setData advance (some f) st nodes).simStopped = true ∧
    (setData advance (some f) st nodes).warmTicks = st.warmTicks ∧
    (∀ (i : ℕ) (hi : i < nodes.length) (p : ℚ × ℚ), f nodes[i].id = some p →
      (renderGraph (setData advance (some f) st nodes)).graphicsPos[i]? = some p) := by
  have hall : nodes.all (fun n => (f n.id).isSome) = true := List.all_eq_true.mpr hcov
  have hset : setData advance (some f) st nodes =
      { firstRender := false,
        d3Nodes := nodes.map (fun n =>
          match f n.id with
          | some p => { n with x := p.1, y := p.2 }
          | none => n),
        graphicsPos := nodes.map (fun n => (n.x, n.y)),
        simStopped := true, warmTicks := st.warmTicks } := by
    simp only [setData, renderGraph, setNodePositionsStep, hfirst, if_true, hall]
  refine ⟨by rw [hset], by rw [hset], ?_⟩
  intro i hi p hp
  rw [hset]
  simp only [renderGraph, List.map_map]
  rw [List.getElem?_map]
  rw [List.getElem?_eq_getElem hi]
  simp [Function.comp, hp]

unseal Rat.mul Rat.add Rat.sub Rat.inv in
/-- Witness for the amended C7 theorem: one node with id 1, snapshot
placing it at (5, 6). -/
theorem setData_first_call_snapshot_stops_simulation_witness :
    (setData id (some fun _ => some ((5 : ℚ), (6 : ℚ))) ⟨true, [], [], false, 0⟩
        [⟨1, 0, 0⟩]).simStopped = true ∧
    (setData id (some fun _ => some ((5 : ℚ), (6 : ℚ))) ⟨true, [], [], false, 0⟩
        [⟨1, 0, 0⟩]).warmTicks = 0 ∧
    (∀ (i : ℕ) (hi : i < ([⟨1, 0, 0⟩] : List GNode).length) (p : ℚ × ℚ),
      (fun _ => some ((5 : ℚ), (6 : ℚ))) (([⟨1, 0, 0⟩] : List GNode)[i].id) = some p →
      (renderGraph (setData id (some fun _ => some ((5 : ℚ), (6 : ℚ)))
        ⟨true, [], [], false, 0⟩ [⟨1, 0, 0⟩])).graphicsPos[i]? = some p) :=
  setData_first_call_snapshot_stops_simulation id (fun _ => some (5, 6))
    ⟨true, [], [], false, 0⟩ [⟨1, 0, 0⟩] rfl (by decide)

/-! ### BoundingBoxCache (src/rendering/bounding-box-cache.ts) -/

/-- A display object as the cache sees it: identity, position, and its
(stable) size in local space. -/
structure VisObj where
  id : ℕ
  px : ℚ
  py : ℚ
  lw : ℚ
  lh : ℚ
deriving DecidableEq, Repr

/-- State of a `BoundingBoxCache`: the `#sizes` map (keyed by object) and
the current `#scale`. -/
structure BBoxCacheState where
  sizes : List (ℕ × (ℚ × ℚ))
  scaleX : ℚ
  scaleY : ℚ
deriving DecidableEq, Repr

/-- Association-list lookup for the `#sizes` map. -/
def lookupSize : List (ℕ × (ℚ × ℚ)) → ℕ → Option (ℚ × ℚ)
  | [], _ => none
  | (k, v) :: t, key => if k = key then some v else lookupSize t key

/-- The external `object.getBounds()` (pixi.js): the screen-space bounding
box of an object whose local size is stable is its local size multiplied by
the viewport scale. -/
def getBoundsSize (obj : VisObj) (sx sy : ℚ) : ℚ × ℚ := (obj.lw * sx, obj.lh * sy)

/-- Embeds `BoundingBoxCache.#cacheSize`: compute the screen-space size,
store it divided by the current scale — but return the undivided
screen-space size to the caller. -/
def cacheSizeStep (c : BBoxCacheState) (obj : VisObj) : BBoxCacheState × (ℚ × ℚ) :=
  let size := getBoundsSize obj c.scaleX c.scaleY
  ({ c with sizes := (obj.id, (size.1 / c.scaleX, size.2 / c.scaleY)) :: c.sizes },
    size)

/-- Embeds `BoundingBoxCache.get`: use the stored size if present,
otherwise cache it; the returned rectangle is centered on the object's
position. -/
def cacheGet (c : BBoxCacheState) (obj : VisObj) : BBoxCacheState × Rect2D :=
  match lookupSize c.sizes obj.id with
  | some size => (c, ⟨⟨obj.px - size.1 / 2, obj.py - size.2 / 2⟩, ⟨size.1, size.2⟩⟩)
  | none =>
    let r := cacheSizeStep c obj
    (r.1, ⟨⟨obj.px - r.2.1 / 2, obj.py - r.2.2 / 2⟩, ⟨r.2.1, r.2.2⟩⟩)

unseal Rat.mul Rat.add Rat.sub Rat.inv in
/-- C8 evaluation.  At viewport scale (2, 2), the first `get` for an object
of local size 10×10 at the origin returns the 20×20 screen-space rectangle
(because `#cacheSize` returns the size before dividing by the scale), while
every subsequent `get` with the same position, scale and no cache clear
returns the stored 10×10 rectangle — so the first call's result differs
from all later ones whenever the scale is not 1, refuting the claim that
the cached rectangle equals the one the first call computed. -/
theorem boundingBoxCache_first_get_differs_under_scale :
    (cacheGet ⟨[], 2, 2⟩ ⟨0, 0, 0, 10, 10⟩).2 =
      ⟨⟨-10, -10⟩, ⟨20, 20⟩⟩ ∧
    (cacheGet (cacheGet ⟨[], 2, 2⟩ ⟨0, 0, 0, 10, 10⟩).1 ⟨0, 0, 0, 10, 10⟩).2 =
      ⟨⟨-5, -5⟩, ⟨10, 10⟩⟩ ∧
    (cacheGet ⟨[], 2, 2⟩ ⟨0, 0, 0, 10, 10⟩).2 ≠
      (cacheGet (cacheGet ⟨[], 2, 2⟩ ⟨0, 0, 0, 10, 10⟩).1 ⟨0, 0, 0, 10, 10⟩).2 :=
  ⟨by decide, by decide, by decide⟩

/-! ### Persisted position snapshots (src/providers/app-state.ts, C9)

The `'nodePositions'` query parameter is decoded by `trySet` in
`AppState.deserialize`: the value function — `atob`, `msgpack.decode` and
the entries loop, all of which may throw on malformed input — runs inside
`try/catch`; a throw is logged and the state key left untouched.  The
external decoders are abstracted as one fallible `parse` function, so the
theorems quantify over every possible decoder behaviour, including always
throwing. -/

/-- Embeds the `trySet` helper of `AppState.deserialize`: a successful
parse assigns the value, a throw is caught and the prior value kept. -/
def trySet {α : Type} (prior : α) (decoded : Except String α) : α :=
  match decoded with
  | .ok v => v
  | .error _ => prior

/-- Embeds the `'nodePositions'` deserialization: absent query parameter
means the fresh state's positions stay unset; otherwise the parse runs
under `trySet`, so failure falls back to "no positions known". -/
def deserializeNodePositions (parse : String → Except String (List (ℕ × (ℚ × ℚ))))
    (query : Option String) : Option (List (ℕ × (ℚ × ℚ))) :=
  match query with
  | none => none
  | some s => trySet none ((parse s).map some)

/-- C9.  Decoding a persisted position snapshot never throws: the
deserializer is a total function whose result is the decoded id-to-position
mapping when the (arbitrary, possibly-throwing) external parse succeeds and
"no positions known" (`none`) when it throws or the parameter is absent;
and a snapshot covering only a subset of the node ids makes
`#setNodePositions` report failure, so the renderer falls back to the
no-saved-positions path. -/
theorem nodePositions_decoding_never_throws
    (parse : String → Except String (List (ℕ × (ℚ × ℚ)))) :
    (∀ s m, parse s = .ok m → deserializeNodePositions parse (some s) = some m) ∧
    (∀ s e, parse s = .error e → deserializeNodePositions parse (some s) = none) ∧
    deserializeNodePositions parse none = none ∧
    (∀ (f : ℕ → Option (ℚ × ℚ)) (ns : List GNode) (n : GNode),
      n ∈ ns → f n.id = none → (setNodePositionsStep (some f) ns).2 = false) := by
  refine ⟨?_, ?_, rfl, ?_⟩
  · intro s m h
    simp [deserializeNodePositions, trySet, h, Except.map]
  · intro s e h
    simp [deserializeNodePositions, trySet, h, Except.map]
  · intro f ns n hmem hf
    simp only [setNodePositionsStep]
    rw [List.all_eq_false]
    exact ⟨n, hmem, by simp [hf]⟩

/-- Witness for C9, with a concrete parser that succeeds on "good" and
throws on everything else, and a snapshot covering no ids. -/
theorem nodePositions_decoding_never_throws_witness :
    deserializeNodePositions
      (fun s => if s = "good" then .ok [(1, (2, 3))] else .error "malformed")
      (some "good") = some [(1, (2, 3))] ∧
    deserializeNodePositions
      (fun s => if s = "good" then .ok [(1, (2, 3))] else .error "malformed")
      (some "%%%not-base64%%%") = none ∧
    deserializeNodePositions
      (fun s => if s = "good" then .ok [(1, (2, 3))] else .error "malformed")
      none = none ∧
    (setNodePositionsStep (some fun _ => none) [⟨1, 0, 0⟩]).2 = false := by
  refine ⟨?_, ?_, ?_, ?_⟩
  · exact (nodePositions_decoding_never_throws
      (fun s => if s = "good" then .ok [(1, (2, 3))] else .error "malformed")).1
      "good" [(1, (2, 3))] rfl
  · exact (nodePositions_decoding_never_throws
      (fun s => if s = "good" then .ok [(1, (2, 3))] else .error "malformed")).2.1
      "%%%not-base64%%%" "malformed" rfl
  · exact (nodePositions_decoding_never_throws
      (fun s => if s = "good" then .ok [(1, (2, 3))] else .error "malformed")).2.2.1
  · exact (nodePositions_decoding_never_throws
      (fun s => if s = "good" then .ok [(1, (2, 3))] else .error "malformed")).2.2.2
      (fun _ => none) [⟨1, 0, 0⟩] ⟨1, 0, 0⟩ (by decide) rfl

/-! ### NodeSelection (node-selection.ts, C10)

Visual handles are identified by numbers; the `tint` property of every
visual in the scene is carried as one total assignment so that the
highlight side effects of the selection operations stay observable. -/

/-- State of a `NodeSelection` together with the tint of every visual:
the member set (`#nodes`, insertion-ordered, duplicate-free), the
selection's highlight tint (`#tint`), and each visual's current tint. -/
structure SelState where
  nodes : List ℕ
  tint : ℕ
  tints : ℕ → ℕ

/-- JS `Set.add`: append if absent. -/
def insertNode (l : List ℕ) (v : ℕ) : List ℕ := if v ∈ l then l else l ++ [v]

/-- Assign one visual's `tint` property. -/
def updTint (f : ℕ → ℕ) (v t : ℕ) : ℕ → ℕ := fun u => if u = v then t else f u

/-- Embeds `NodeSelection.add`: insert the node and paint it with the
selection tint. -/
def selAdd (st : SelState) (v : ℕ) : SelState :=
  { st with
    nodes := insertNode st.nodes v
    tints := updTint st.tints v st.tint }

/-- Embeds `NodeSelection.delete`: remove the node and restore the default
tint `0xffffff`. -/
def selDelete (st : SelState) (v : ℕ) : SelState :=
  { st with
    nodes := st.nodes.erase v
    tints := updTint st.tints v 16777215 }

/-- Embeds `NodeSelection.clear`: restore the default tint on every member,
then empty the set. -/
def selClear (st : SelState) : SelState :=
  { st with
    nodes := []
    tints := st.nodes.foldl (fun f v => updTint f v 16777215) st.tints }

/-- Embeds `NodeSelection.select` (iterable case): clear, then add each
given node. -/
def selSelect (st : SelState) (vs : List ℕ) : SelState :=
  vs.foldl selAdd (selClear st)

/-- Embeds the `NodeSelection.tint` setter: identical values are ignored;
otherwise every member is repainted with the new tint. -/
def selSetTint (st : SelState) (value : ℕ) : SelState :=
  if st.tint = value then st
  else
    { st with
      tint := value
      tints := st.nodes.foldl (fun f v => updTint f v value) st.tints }

/-- The invariant C10 asserts: every visual currently in the selection
carries the selection's highlight tint. -/
def selInv (st : SelState) : Prop := ∀ v ∈ st.nodes, st.tints v = st.tint

instance (st : SelState) : Decidable (selInv st) := by
  unfold selInv; infer_instance

theorem foldl_updTint (t : ℕ) :
    ∀ (l : List ℕ) (f : ℕ → ℕ) (u : ℕ),
      (l.foldl (fun g v => updTint g v t) f) u = if u ∈ l then t else f u := by
  intro l
  induction l with
  | nil => intro f u; simp
  | cons a l ih =>
      intro f u
      simp only [List.foldl_cons, ih]
      by_cases hu : u ∈ l
      · simp [hu]
      · by_cases hua : u = a
        · simp [hu, hua, updTint]
        · simp [hu, hua, updTint]

theorem selAdd_inv {st : SelState} (h : selInv st) (v : ℕ) : selInv (selAdd st v) := by
  intro u hu
  simp only [selAdd, insertNode] at hu ⊢
  by_cases huv : u = v
  · simp [updTint, huv]
  · have : u ∈ st.nodes := by
      by_cases hv : v ∈ st.nodes
      · simpa [hv] using hu
      · rcases (by simpa [hv] using hu : u ∈ st.nodes ∨ u = v) with h' | h'
        · exact h'
        · exact absurd h' huv
    simp [updTint, huv, h u this]

theorem selClear_inv (st : SelState) : selInv (selClear st) := by
  intro u hu
  simp [selClear] at hu

theorem selSelect_inv {st : SelState} (vs : List ℕ) : selInv (selSelect st vs) := by
  unfold selSelect
  have : ∀ (l : List ℕ) (s : SelState), selInv s → selInv (l.foldl selAdd s) := by
    intro l
    induction l with
    | nil => intro s hs; exact hs
    | cons a l ih => intro s hs; exact ih _ (selAdd_inv hs a)
  exact this vs _ (selClear_inv st)

/-- C10.  Every `NodeSelection` operation — `add`, `delete`, `clear`,
`select`, and the `tint` setter — preserves the invariant that each visual
in the selection carries the selection's highlight tint, and a visual
leaving the selection via `delete` (or the whole membership on `clear`) has
the default tint `0xffffff` restored.  (`delete` relies on the member set
being duplicate-free, which the JS `Set` guarantees.) -/
theorem nodeSelection_ops_preserve_tint_invariant
    (st : SelState) (va vd t : ℕ) (vs : List ℕ)
    (h : selInv st) (hnd : st.nodes.Nodup) :
    selInv (selAdd st va) ∧
    (selInv (selDelete st vd) ∧ (selDelete st vd).tints vd = 16777215) ∧
    (selInv (selClear st) ∧ ∀ u ∈ st.nodes, (selClear st).tints u = 16777215) ∧
    selInv (selSelect st vs) ∧
    selInv (selSetTint st t) := by
  refine ⟨selAdd_inv h va, ⟨?_, ?_⟩, ⟨selClear_inv st, ?_⟩, selSelect_inv vs, ?_⟩
  · intro u hu
    simp only [selDelete] at hu ⊢
    have hne : u ≠ vd ∧ u ∈ st.nodes := (List.Nodup.mem_erase_iff hnd).mp hu
    simp [updTint, hne.1, h u hne.2]
  · simp [selDelete, updTint]
  · intro u hu
    simp [selClear, foldl_updTint, hu]
  · unfold selSetTint
    by_cases he : st.tint = t
    · simpa [he] using h
    · intro u hu
      simp only [if_neg he] at hu ⊢
      simp [foldl_updTint, hu]

/-- Witness for C10 at a concrete selection of visuals 0 and 1 painted with
tint `0x666666`. -/
theorem nodeSelection_ops_preserve_tint_invariant_witness :
    selInv (selAdd ⟨[0, 1], 6710886, fun _ => 6710886⟩ 2) ∧
    (selInv (selDelete ⟨[0, 1], 6710886, fun _ => 6710886⟩ 0) ∧
      (selDelete ⟨[0, 1], 6710886, fun _ => 6710886⟩ 0).tints 0 = 16777215) ∧
    (selInv (selClear ⟨[0, 1], 6710886, fun _ => 6710886⟩) ∧
      ∀ u ∈ ([0, 1] : List ℕ),
        (selClear ⟨[0, 1], 6710886, fun _ => 6710886⟩).tints u = 16777215) ∧
    selInv (selSelect ⟨[0, 1], 6710886, fun _ => 6710886⟩ [3, 4]) ∧
    selInv (selSetTint ⟨[0, 1], 6710886, fun _ => 6710886⟩ 255) :=
  nodeSelection_ops_preserve_tint_invariant ⟨[0, 1], 6710886, fun _ => 6710886⟩
    2 0 255 [3, 4] (by decide) (by decide)

end VisClient
